import Mathlib

/-!
Verification of the discovery-and-fuzzing engine of `fuzz.py`.

Python dictionaries are embedded as insertion-ordered association lists
(`List (κ × β)`): assignment `d[k] = v` replaces the value in place when the
key is present and appends the pair otherwise, and `==` on dictionaries is
key-set plus value equality, irrespective of insertion order.  Python sets of
strings are embedded as `Finset String` (for the flag sets stored in
`TestResults`) or as lists used only through membership.
-/

set_option autoImplicit false

universe u v

/-- Lookup in an association list, mirroring Python dictionary indexing
(`d[k]` / `d.get(k)`); returns the value of the first pair whose key matches. -/
def lookupD {κ : Type u} {β : Type v} [DecidableEq κ] : List (κ × β) → κ → Option β
  | [], _ => none
  | (k, v) :: t, key => if k = key then some v else lookupD t key

/-- Assignment `d[k] = v` on a Python dictionary: replace the value in place
when the key is present, append the new pair otherwise. -/
def dinsert {κ : Type u} {β : Type v} [DecidableEq κ] : List (κ × β) → κ → β → List (κ × β)
  | [], k, v => [(k, v)]
  | (a, b) :: t, k, v => if a = k then (k, v) :: t else (a, b) :: dinsert t k v

/-- The keys of an association list, in insertion order. -/
def keysOf {κ : Type u} {β : Type v} (l : List (κ × β)) : List κ := l.map Prod.fst

/-- A well-formed Python dictionary never holds the same key twice. -/
def NodupKeys {κ : Type u} {β : Type v} (l : List (κ × β)) : Prop := (keysOf l).Nodup

instance {κ : Type u} {β : Type v} [DecidableEq κ] (l : List (κ × β)) :
    Decidable (NodupKeys l) :=
  inferInstanceAs (Decidable (keysOf l).Nodup)

/-- Python `d.update(other)`: assign every pair of `other` into `d`, in order. -/
def updateD {κ : Type u} {β : Type v} [DecidableEq κ] (a b : List (κ × β)) : List (κ × β) :=
  b.foldl (fun acc p => dinsert acc p.1 p.2) a

theorem keysOf_nil {κ : Type u} {β : Type v} : keysOf ([] : List (κ × β)) = [] := rfl

theorem keysOf_cons {κ : Type u} {β : Type v} (p : κ × β) (t : List (κ × β)) :
    keysOf (p :: t) = p.1 :: keysOf t := rfl

theorem keysOf_append {κ : Type u} {β : Type v} (a b : List (κ × β)) :
    keysOf (a ++ b) = keysOf a ++ keysOf b := by
  simp [keysOf]

theorem lookupD_eq_none {κ : Type u} {β : Type v} [DecidableEq κ]
    (l : List (κ × β)) (key : κ) : lookupD l key = none ↔ key ∉ keysOf l := by
  induction l with
  | nil => simp [lookupD, keysOf]
  | cons p t ih =>
    obtain ⟨k, v⟩ := p
    by_cases h : k = key
    · subst h
      simp [lookupD, keysOf]
    · rw [keysOf_cons]
      simp only [lookupD, if_neg h, List.mem_cons, ih]
      constructor
      · intro hn hor
        rcases hor with hor | hor
        · exact h hor.symm
        · exact hn hor
      · intro hn
        exact fun hm => hn (Or.inr hm)

theorem lookupD_isSome_iff {κ : Type u} {β : Type v} [DecidableEq κ]
    (l : List (κ × β)) (key : κ) : (lookupD l key).isSome = true ↔ key ∈ keysOf l := by
  rw [Option.isSome_iff_ne_none]
  constructor
  · intro h
    by_contra hk
    exact h ((lookupD_eq_none l key).mpr hk)
  · intro h hn
    exact ((lookupD_eq_none l key).mp hn) h

theorem lookupD_append {κ : Type u} {β : Type v} [DecidableEq κ]
    (a b : List (κ × β)) (key : κ) :
    lookupD (a ++ b) key =
      match lookupD a key with
      | some v => some v
      | none => lookupD b key := by
  induction a with
  | nil => simp [lookupD]
  | cons p t ih =>
    obtain ⟨k, v⟩ := p
    by_cases h : k = key <;> simp [lookupD, h, ih]

theorem lookupD_dinsert {κ : Type u} {β : Type v} [DecidableEq κ]
    (l : List (κ × β)) (k : κ) (v : β) (key : κ) :
    lookupD (dinsert l k v) key = if key = k then some v else lookupD l key := by
  induction l with
  | nil =>
    by_cases hk : key = k
    · subst hk
      simp [dinsert, lookupD]
    · simp [dinsert, lookupD, hk, Ne.symm hk]
  | cons p t ih =>
    obtain ⟨a, b⟩ := p
    by_cases hak : a = k
    · subst hak
      by_cases hk : key = a
      · subst hk
        simp [dinsert, lookupD]
      · simp [dinsert, lookupD, hk, Ne.symm hk]
    · by_cases hka : a = key
      · subst hka
        simp [dinsert, lookupD, hak]
      · simp [dinsert, lookupD, hak, hka, ih]

theorem keysOf_dinsert {κ : Type u} {β : Type v} [DecidableEq κ]
    (l : List (κ × β)) (k : κ) (v : β) :
    keysOf (dinsert l k v) =
      if k ∈ keysOf l then keysOf l else keysOf l ++ [k] := by
  induction l with
  | nil => simp [dinsert, keysOf]
  | cons p t ih =>
    obtain ⟨a, b⟩ := p
    by_cases hak : a = k
    · subst hak
      simp [dinsert, keysOf]
    · have hne : k ≠ a := fun h => hak h.symm
      by_cases hkt : k ∈ keysOf t
      · simp [dinsert, hak, keysOf_cons, hkt, ih, hne]
      · simp [dinsert, hak, keysOf_cons, hkt, ih, hne]

theorem nodupKeys_dinsert {κ : Type u} {β : Type v} [DecidableEq κ]
    {l : List (κ × β)} (k : κ) (v : β) (h : NodupKeys l) : NodupKeys (dinsert l k v) := by
  unfold NodupKeys at h ⊢
  rw [keysOf_dinsert]
  by_cases hs : k ∈ keysOf l
  · simpa [hs] using h
  · simp [hs, List.nodup_append, h]

theorem nodupKeys_updateD {κ : Type u} {β : Type v} [DecidableEq κ]
    (a b : List (κ × β)) (ha : NodupKeys a) : NodupKeys (updateD a b) := by
  induction b generalizing a with
  | nil => exact ha
  | cons p t ih =>
    have : updateD a (p :: t) = updateD (dinsert a p.1 p.2) t := rfl
    rw [this]
    exact ih _ (nodupKeys_dinsert _ _ ha)

theorem lookupD_updateD {κ : Type u} {β : Type v} [DecidableEq κ]
    (a b : List (κ × β)) (hb : NodupKeys b) (key : κ) :
    lookupD (updateD a b) key =
      match lookupD b key with
      | some v => some v
      | none => lookupD a key := by
  induction b generalizing a with
  | nil => simp [updateD, lookupD]
  | cons p t ih =>
    obtain ⟨k, v⟩ := p
    have hstep : updateD a ((k, v) :: t) = updateD (dinsert a k v) t := rfl
    have hkt : k ∉ keysOf t := by
      have := hb
      unfold NodupKeys at this
      rw [keysOf_cons] at this
      exact (List.nodup_cons.mp this).1
    have htt : NodupKeys t := by
      have := hb
      unfold NodupKeys at this
      rw [keysOf_cons] at this
      exact (List.nodup_cons.mp this).2
    rw [hstep, ih _ htt]
    by_cases hk : key = k
    · subst hk
      have : lookupD t key = none := (lookupD_eq_none t key).mpr hkt
      simp [this, lookupD, lookupD_dinsert]
    · cases hl : lookupD t key <;> simp [lookupD, Ne.symm hk, hl, lookupD_dinsert, hk]

/-- The counts half of `TestResults.__add__`: for each entry of `other`,
initialise the key to `0` if absent, then add the other value. -/
def mergeCounts {κ : Type u} [DecidableEq κ] (a b : List (κ × Int)) : List (κ × Int) :=
  b.foldl (fun acc p => dinsert acc p.1 ((lookupD acc p.1).getD 0 + p.2)) a

theorem lookupD_mergeCounts {κ : Type u} [DecidableEq κ]
    (a b : List (κ × Int)) (hb : NodupKeys b) (key : κ) :
    lookupD (mergeCounts a b) key =
      match lookupD b key with
      | some v => some ((lookupD a key).getD 0 + v)
      | none => lookupD a key := by
  induction b generalizing a with
  | nil => simp [mergeCounts, lookupD]
  | cons p t ih =>
    obtain ⟨k, v⟩ := p
    have hstep : mergeCounts a ((k, v) :: t) =
        mergeCounts (dinsert a k ((lookupD a k).getD 0 + v)) t := rfl
    have hkt : k ∉ keysOf t := by
      have := hb
      unfold NodupKeys at this
      rw [keysOf_cons] at this
      exact (List.nodup_cons.mp this).1
    have htt : NodupKeys t := by
      have := hb
      unfold NodupKeys at this
      rw [keysOf_cons] at this
      exact (List.nodup_cons.mp this).2
    rw [hstep, ih _ htt]
    by_cases hk : key = k
    · subst hk
      have : lookupD t key = none := (lookupD_eq_none t key).mpr hkt
      simp [this, lookupD, lookupD_dinsert]
    · cases hl : lookupD t key <;> simp [lookupD, Ne.symm hk, hl, lookupD_dinsert, hk]

theorem nodupKeys_mergeCounts {κ : Type u} [DecidableEq κ]
    (a b : List (κ × Int)) (ha : NodupKeys a) : NodupKeys (mergeCounts a b) := by
  induction b generalizing a with
  | nil => exact ha
  | cons p t ih =>
    have hstep : mergeCounts a (p :: t) =
        mergeCounts (dinsert a p.1 ((lookupD a p.1).getD 0 + p.2)) t := rfl
    rw [hstep]
    exact ih _ (nodupKeys_dinsert _ _ ha)

/-- Python `==` on dictionaries: same key set, and values compared by `veq`
at every key.  Insertion order is irrelevant, exactly as for Python dicts. -/
def dEqvBy {κ : Type u} {β : Type v} [DecidableEq κ] (veq : β → β → Bool)
    (a b : List (κ × β)) : Bool :=
  (keysOf a ++ keysOf b).all (fun k =>
    match lookupD a k, lookupD b k with
    | some x, some y => veq x y
    | none, none => true
    | _, _ => false)

theorem dEqvBy_of_lookup_eq {κ : Type u} {β : Type v} [DecidableEq κ]
    (veq : β → β → Bool) (hrefl : ∀ x, veq x x = true)
    (a b : List (κ × β)) (h : ∀ k, lookupD a k = lookupD b k) :
    dEqvBy veq a b = true := by
  unfold dEqvBy
  rw [List.all_eq_true]
  intro k _
  rw [h k]
  cases lookupD b k <;> simp [hrefl]

theorem dEqvBy_refl {κ : Type u} {β : Type v} [DecidableEq κ]
    (veq : β → β → Bool) (hrefl : ∀ x, veq x x = true) (a : List (κ × β)) :
    dEqvBy veq a a = true :=
  dEqvBy_of_lookup_eq veq hrefl a a (fun _ => rfl)

/-- The results structure of `fuzz.py`: a dictionary from page url to
(vector category to set of vulnerability strings), and a dictionary of
occurrence counts.  Category keys are `Option String` because a vector read
before any `CATEGORY:` marker has Python category `None`. -/
structure TestResults where
  pages : List (String × List (Option String × Finset String))
  counts : List (Option String × Int)
deriving DecidableEq

/-- A fresh `TestResults()` with both dictionaries empty. -/
def TestResults.empty : TestResults := ⟨[], []⟩

/-- `TestResults.__add__` on two `TestResults` operands: the pages
dictionaries are combined with `dict.update` (right operand wins on a shared
page key) and the counts are summed per key. -/
def TestResults.add (self other : TestResults) : TestResults :=
  ⟨updateD self.pages other.pages, mergeCounts self.counts other.counts⟩

/-- `TestResults.increment(element)`: initialise a missing count to `0`,
then add one. -/
def TestResults.increment (self : TestResults) (element : Option String) : TestResults :=
  ⟨self.pages, dinsert self.counts element ((lookupD self.counts element).getD 0 + 1)⟩

/-- `TestResults.add_page(page, results)` with `results = [cat, flags]`:
ensure `pages[page]` and `pages[page][cat]` exist, then union the flag set
with the new flags (`set.update`). -/
def TestResults.add_page (self : TestResults) (page : String) (cat : Option String)
    (flags : List String) : TestResults :=
  ⟨dinsert self.pages page
      (dinsert ((lookupD self.pages page).getD [])
        cat
        (((lookupD ((lookupD self.pages page).getD []) cat).getD ∅) ∪ flags.toFinset)),
    self.counts⟩

/-- Python runtime values that can appear as the right operand of `+`:
either a `TestResults` or a value of any other type. -/
inductive PyObject where
  | testResults (t : TestResults)
  | nonTestResults (tag : String)

/-- `TestResults.__add__(self, other)` including the dynamic type guard:
`if type(other) != TestResults: return None`. -/
def TestResults.addPy (self : TestResults) (other : PyObject) : Option TestResults :=
  match other with
  | PyObject.testResults t => some (self.add t)
  | PyObject.nonTestResults _ => none

/-- Value equality on the inner (category to flag set) dictionaries. -/
def innerEqv (a b : List (Option String × Finset String)) : Bool :=
  dEqvBy (fun x y => decide (x = y)) a b

/-- Value equality on the counts dictionaries. -/
def countsEqv (a b : List (Option String × Int)) : Bool :=
  dEqvBy (fun x y => decide (x = y)) a b

/-- Value equality of two `TestResults`, the way Python `==` compares the
underlying dictionaries (recursively, order-independent). -/
def TestResults.eqv (a b : TestResults) : Bool :=
  dEqvBy innerEqv a.pages b.pages && countsEqv a.counts b.counts

theorem innerEqv_refl (a : List (Option String × Finset String)) : innerEqv a a = true :=
  dEqvBy_refl _ (fun x => by simp) a

theorem testResults_eqv_of_lookup_eq (a b : TestResults)
    (hp : ∀ k, lookupD a.pages k = lookupD b.pages k)
    (hc : ∀ k, lookupD a.counts k = lookupD b.counts k) :
    TestResults.eqv a b = true := by
  unfold TestResults.eqv
  rw [Bool.and_eq_true]
  exact ⟨dEqvBy_of_lookup_eq _ innerEqv_refl _ _ hp,
    dEqvBy_of_lookup_eq _ (fun x => by simp) _ _ hc⟩

theorem testResults_eqv_refl (a : TestResults) : TestResults.eqv a a = true :=
  testResults_eqv_of_lookup_eq a a (fun _ => rfl) (fun _ => rfl)

/-- Left operand of the merge counterexample. -/
def crA : TestResults := ⟨[("p", [(some "c1", {"f1"})])], []⟩

/-- Right operand of the merge counterexample; same page key, different category. -/
def crB : TestResults := ⟨[("p", [(some "c2", {"f2"})])], []⟩

/-- C1 counterexample: `TestResults.__add__` combines the pages dictionaries
with `dict.update`, so for a shared page key the right operand's entry
replaces the left one's.  Hence merge is not commutative, and the left
operand's category entry `c1` for page `p` is dropped, contradicting both the
per-category union and the never-drops part of the claim. -/
theorem C1_merge_counterexample :
    TestResults.eqv (crA.add crB) (crB.add crA) = false
    ∧ (lookupD (crA.add crB).pages "p").bind (fun d => lookupD d (some "c1")) = none
    ∧ (lookupD crA.pages "p").bind (fun d => lookupD d (some "c1"))
        = some ({"f1"} : Finset String) := by
  refine ⟨by decide, by decide, by decide⟩

/-- C1 (amended): merge of `TestResults` is associative and has the empty
`TestResults` as right identity, and the counts dictionaries merge
commutatively (values summed).  Page dictionaries merge right-biased: a page
key present in the right operand keeps exactly the right operand's entry,
and a page key absent from the right operand keeps the left operand's entry;
in particular for operands with disjoint page key sets no entry is dropped. -/
theorem C1_merge_thm (A B C : TestResults)
    (hAc : NodupKeys A.counts) (hBp : NodupKeys B.pages) (hBc : NodupKeys B.counts)
    (hCp : NodupKeys C.pages) (hCc : NodupKeys C.counts) :
    TestResults.eqv ((A.add B).add C) (A.add (B.add C)) = true
    ∧ TestResults.eqv (A.add TestResults.empty) A = true
    ∧ countsEqv ((A.add B).counts) ((B.add A).counts) = true
    ∧ (∀ p, lookupD B.pages p = none → lookupD ((A.add B).pages) p = lookupD A.pages p)
    ∧ (∀ p w, lookupD B.pages p = some w → lookupD ((A.add B).pages) p = some w) := by
  refine ⟨?_, ?_, ?_, ?_, ?_⟩
  · refine testResults_eqv_of_lookup_eq _ _ (fun k => ?_) (fun k => ?_)
    · show lookupD (updateD (updateD A.pages B.pages) C.pages) k
        = lookupD (updateD A.pages (updateD B.pages C.pages)) k
      rw [lookupD_updateD _ _ hCp, lookupD_updateD _ _ hBp,
        lookupD_updateD _ _ (nodupKeys_updateD B.pages C.pages hBp),
        lookupD_updateD _ _ hCp]
      cases lookupD C.pages k <;> cases lookupD B.pages k <;> simp
    · show lookupD (mergeCounts (mergeCounts A.counts B.counts) C.counts) k
        = lookupD (mergeCounts A.counts (mergeCounts B.counts C.counts)) k
      rw [lookupD_mergeCounts _ _ hCc, lookupD_mergeCounts _ _ hBc,
        lookupD_mergeCounts _ _ (nodupKeys_mergeCounts B.counts C.counts hBc),
        lookupD_mergeCounts _ _ hCc]
      cases lookupD C.counts k <;> cases lookupD B.counts k <;>
        cases lookupD A.counts k <;> simp [Int.add_assoc]
  · have h : A.add TestResults.empty = A := rfl
    rw [h]
    exact testResults_eqv_refl A
  · refine dEqvBy_of_lookup_eq _ (fun x => by simp) _ _ (fun k => ?_)
    show lookupD (mergeCounts A.counts B.counts) k = lookupD (mergeCounts B.counts A.counts) k
    rw [lookupD_mergeCounts _ _ hBc, lookupD_mergeCounts _ _ hAc]
    cases lookupD A.counts k <;> cases lookupD B.counts k <;> simp [Int.add_comm]
  · intro p hp
    show lookupD (updateD A.pages B.pages) p = lookupD A.pages p
    rw [lookupD_updateD _ _ hBp, hp]
  · intro p w hp
    show lookupD (updateD A.pages B.pages) p = some w
    rw [lookupD_updateD _ _ hBp, hp]

/-- Concrete first operand for exercising the amended merge theorem. -/
def wA : TestResults :=
  ⟨[("p1", [(some "c1", {"f1"})])], [(some "SQLi", 2), (none, 1)]⟩

/-- Concrete second operand for exercising the amended merge theorem. -/
def wB : TestResults := ⟨[("p2", [(some "c2", {"f2"})])], [(some "SQLi", 3)]⟩

/-- Concrete third operand for exercising the amended merge theorem. -/
def wC : TestResults := ⟨[("p1", [(none, {"f3"})])], [(some "XSS", 5)]⟩

/-- Witness that the hypotheses of the amended merge theorem are satisfiable
and its conclusion holds at concrete inputs. -/
theorem C1_merge_thm_witness :
    (NodupKeys wA.counts ∧ NodupKeys wB.pages ∧ NodupKeys wB.counts
      ∧ NodupKeys wC.pages ∧ NodupKeys wC.counts)
    ∧ TestResults.eqv ((wA.add wB).add wC) (wA.add (wB.add wC)) = true
    ∧ TestResults.eqv (wA.add TestResults.empty) wA = true
    ∧ countsEqv ((wA.add wB).counts) ((wB.add wA).counts) = true :=
  ⟨⟨by decide, by decide, by decide, by decide, by decide⟩,
    (C1_merge_thm wA wB wC (by decide) (by decide) (by decide) (by decide) (by decide)).1,
    (C1_merge_thm wA wB wC (by decide) (by decide) (by decide) (by decide) (by decide)).2.1,
    (C1_merge_thm wA wB wC (by decide) (by decide) (by decide) (by decide) (by decide)).2.2.1⟩

/-- C9: `TestResults.__add__` begins with `if type(other) != TestResults:
return None`, so adding any value that is not a `TestResults` returns the
Python null value `None` (no exception, no `TestResults`). -/
theorem C9_addPy_nonTestResults (a : TestResults) (tag : String) :
    a.addPy (PyObject.nonTestResults tag) = none := rfl

/-- Python substring containment `needle in hay` on character lists. -/
def subList (needle : List Char) : List Char → Bool
  | [] => needle.isEmpty
  | c :: t => needle.isPrefixOf (c :: t) || subList needle t

/-- Python `needle in hay` on strings. -/
def pyIn (needle hay : String) : Bool := subList needle.data hay.data

/-- The default whitespace stripped by Python `str.strip()` (ASCII part). -/
def pySpace (c : Char) : Bool :=
  c = ' ' || c = '\t' || c = '\n' || c = '\x0d' || c = '\x0b' || c = '\x0c'

/-- Python `str.strip()`: drop leading and trailing whitespace. -/
def pyStrip (s : String) : String :=
  ⟨((s.data.dropWhile pySpace).reverse.dropWhile pySpace).reverse⟩

/-- A browser response as the classifiers see it: body text, HTTP status
code, and final url. -/
structure Response where
  text : String
  status_code : Nat
  url : String

/-- `check_for_sanitization`: some configured character occurs in the vector
and the whole vector occurs verbatim in the response body. -/
def check_for_sanitization (vector : String) (response : Response)
    (sanitized_chars : List String) : Bool :=
  sanitized_chars.any (fun char => pyIn char vector && pyIn vector response.text)

/-- `check_for_sensitive_data`: some sensitive token occurs verbatim in the
response body. -/
def check_for_sensitive_data (response : Response) (sensitive : List String) : Bool :=
  sensitive.any (fun element => pyIn element response.text)

/-- `check_for_delayed_response`: the elapsed seconds, converted to
milliseconds, strictly exceed the slow threshold. -/
def check_for_delayed_response (response_time : ℚ) (slow : ℤ) : Bool :=
  decide (response_time * 1000 > (slow : ℚ))

/-- `check_http_response_code`: the status code differs from 200 (the
printing of the human-readable message is output only). -/
def check_http_response_code (response : Response) : Bool :=
  decide (response.status_code ≠ 200)

/-- C7: the unsanitized-echo predicate flags exactly when some configured
sanitized character occurs in the vector and the full vector occurs verbatim
in the response body; with characters `<`, `>` and vector `<script>` a body
containing `<script>` verbatim is flagged while an HTML-escaped body is not. -/
theorem C7_sanitization_thm :
    (∀ (vector : String) (response : Response) (sanitized_chars : List String),
      check_for_sanitization vector response sanitized_chars = true ↔
        ∃ char ∈ sanitized_chars, pyIn char vector = true ∧ pyIn vector response.text = true)
    ∧ check_for_sanitization "<script>"
        ⟨"<html><body><script>alert(1)</script></body></html>", 200, "u"⟩ ["<", ">"] = true
    ∧ check_for_sanitization "<script>"
        ⟨"<html><body>&lt;script&gt;alert(1)&lt;/script&gt;</body></html>", 200, "u"⟩
        ["<", ">"] = false := by
  refine ⟨fun vector response sanitized_chars => ?_, by decide, by decide⟩
  simp [check_for_sanitization, List.any_eq_true, Bool.and_eq_true]

/-- C8: the slow-response predicate flags exactly when elapsed time in
milliseconds strictly exceeds the threshold; with threshold 500 ms, elapsed
0.6 s is flagged, 0.4 s is not, and exactly 0.5 s (500 ms) is not. -/
theorem C8_delayed_response_thm :
    (∀ (response_time : ℚ) (slow : ℤ),
      check_for_delayed_response response_time slow = true ↔ response_time * 1000 > (slow : ℚ))
    ∧ check_for_delayed_response (6 / 10) 500 = true
    ∧ check_for_delayed_response (4 / 10) 500 = false
    ∧ check_for_delayed_response (5 / 10) 500 = false := by
  refine ⟨fun response_time slow => ?_, ?_, ?_, ?_⟩
  · simp [check_for_delayed_response]
  · simp [check_for_delayed_response]
    norm_num
  · simp [check_for_delayed_response]
    norm_num
  · simp [check_for_delayed_response]
    norm_num

/-- The `vulnerabilities` list accumulated by `run_checks`, in check order. -/
def vulnList (vector : String) (response : Response) (response_time : ℚ)
    (sensitive sanitized_chars : List String) (slow : ℤ) : List String :=
  (if check_for_sanitization vector response sanitized_chars
    then ["Unsanitized input"] else []) ++
  (if check_for_sensitive_data response sensitive
    then ["Sensitive data leaked"] else []) ++
  (if check_for_delayed_response response_time slow
    then ["Delayed response"] else []) ++
  (if check_http_response_code response
    then ["HTTP response code " ++ toString response.status_code] else [])

/-- The four guarded `test_results.increment(...)` calls of `run_checks`,
executed in source order.  Note the status-code counter key is the literal
`"HTTP response code "` while the recorded flag string appends the code. -/
def kindIncrements (vector : String) (response : Response) (response_time : ℚ)
    (test_results : TestResults) (sensitive sanitized_chars : List String) (slow : ℤ) :
    TestResults :=
  let tr1 := if check_for_sanitization vector response sanitized_chars
    then test_results.increment (some "Unsanitized input") else test_results
  let tr2 := if check_for_sensitive_data response sensitive
    then tr1.increment (some "Sensitive data leaked") else tr1
  let tr3 := if check_for_delayed_response response_time slow
    then tr2.increment (some "Delayed response") else tr2
  if check_http_response_code response
    then tr3.increment (some "HTTP response code ") else tr3

/-- `run_checks`: run the four classifiers, incrementing a kind counter for
each raised flag; if any flag was raised, additionally increment the vector's
category counter once and record the flag strings on the target page. -/
def run_checks (vector : String) (vector_type : Option String) (target : String)
    (response : Response) (response_time : ℚ) (test_results : TestResults)
    (sensitive sanitized_chars : List String) (slow : ℤ) : TestResults :=
  let tr4 := kindIncrements vector response response_time test_results sensitive
    sanitized_chars slow
  let vulnerabilities := vulnList vector response response_time sensitive sanitized_chars slow
  if vulnerabilities.length > 0 then
    (tr4.increment vector_type).add_page target vector_type vulnerabilities
  else tr4

theorem pages_increment (t : TestResults) (k : Option String) :
    (t.increment k).pages = t.pages := rfl

theorem counts_add_page (t : TestResults) (p : String) (c : Option String) (fl : List String) :
    (t.add_page p c fl).counts = t.counts := rfl

theorem lookup_increment_self (t : TestResults) (k : Option String) :
    lookupD (t.increment k).counts k = some ((lookupD t.counts k).getD 0 + 1) := by
  simp [TestResults.increment, lookupD_dinsert]

theorem lookup_increment_ne (t : TestResults) {k key : Option String} (h : key ≠ k) :
    lookupD (t.increment k).counts key = lookupD t.counts key := by
  simp [TestResults.increment, lookupD_dinsert, h]

theorem lookup_add_page (t : TestResults) (p : String) (c : Option String) (fl : List String) :
    lookupD (t.add_page p c fl).pages p
      = some (dinsert ((lookupD t.pages p).getD []) c
          (((lookupD ((lookupD t.pages p).getD []) c).getD ∅) ∪ fl.toFinset)) := by
  simp [TestResults.add_page, lookupD_dinsert]

theorem vulnList_eq_nil (vector : String) (response : Response) (response_time : ℚ)
    (sensitive sanitized_chars : List String) (slow : ℤ) :
    vulnList vector response response_time sensitive sanitized_chars slow = [] ↔
      check_for_sanitization vector response sanitized_chars = false
      ∧ check_for_sensitive_data response sensitive = false
      ∧ check_for_delayed_response response_time slow = false
      ∧ check_http_response_code response = false := by
  unfold vulnList
  split_ifs with a b c d <;> simp_all

theorem kindIncrements_pages (vector : String) (response : Response) (response_time : ℚ)
    (tr : TestResults) (sensitive sanitized_chars : List String) (slow : ℤ) :
    (kindIncrements vector response response_time tr sensitive sanitized_chars slow).pages
      = tr.pages := by
  unfold kindIncrements
  split_ifs <;> simp [pages_increment]

theorem kindIncrements_lookup_ne (vector : String) (response : Response) (response_time : ℚ)
    (tr : TestResults) (sensitive sanitized_chars : List String) (slow : ℤ)
    {key : Option String}
    (h1 : key ≠ some "Unsanitized input") (h2 : key ≠ some "Sensitive data leaked")
    (h3 : key ≠ some "Delayed response") (h4 : key ≠ some "HTTP response code ") :
    lookupD (kindIncrements vector response response_time tr sensitive
      sanitized_chars slow).counts key = lookupD tr.counts key := by
  unfold kindIncrements
  split_ifs <;>
    simp [lookup_increment_ne _ h1, lookup_increment_ne _ h2,
      lookup_increment_ne _ h3, lookup_increment_ne _ h4]

theorem kindIncrements_lookup_k1 (vector : String) (response : Response) (response_time : ℚ)
    (tr : TestResults) (sensitive sanitized_chars : List String) (slow : ℤ)
    (hb1 : check_for_sanitization vector response sanitized_chars = true) :
    lookupD (kindIncrements vector response response_time tr sensitive
        sanitized_chars slow).counts (some "Unsanitized input")
      = some ((lookupD tr.counts (some "Unsanitized input")).getD 0 + 1) := by
  have n2 : (some "Unsanitized input" : Option String) ≠ some "Sensitive data leaked" := by decide
  have n3 : (some "Unsanitized input" : Option String) ≠ some "Delayed response" := by decide
  have n4 : (some "Unsanitized input" : Option String) ≠ some "HTTP response code " := by decide
  cases hb2 : check_for_sensitive_data response sensitive <;>
    cases hb3 : check_for_delayed_response response_time slow <;>
      cases hb4 : check_http_response_code response <;>
        simp [kindIncrements, hb1, hb2, hb3, hb4, lookup_increment_self,
          lookup_increment_ne _ n2, lookup_increment_ne _ n3, lookup_increment_ne _ n4]

theorem kindIncrements_lookup_k2 (vector : String) (response : Response) (response_time : ℚ)
    (tr : TestResults) (sensitive sanitized_chars : List String) (slow : ℤ)
    (hb2 : check_for_sensitive_data response sensitive = true) :
    lookupD (kindIncrements vector response response_time tr sensitive
        sanitized_chars slow).counts (some "Sensitive data leaked")
      = some ((lookupD tr.counts (some "Sensitive data leaked")).getD 0 + 1) := by
  have n1 : (some "Sensitive data leaked" : Option String) ≠ some "Unsanitized input" := by decide
  have n3 : (some "Sensitive data leaked" : Option String) ≠ some "Delayed response" := by decide
  have n4 : (some "Sensitive data leaked" : Option String) ≠ some "HTTP response code " := by
    decide
  cases hb1 : check_for_sanitization vector response sanitized_chars <;>
    cases hb3 : check_for_delayed_response response_time slow <;>
      cases hb4 : check_http_response_code response <;>
        simp [kindIncrements, hb1, hb2, hb3, hb4, lookup_increment_self,
          lookup_increment_ne _ n1, lookup_increment_ne _ n3, lookup_increment_ne _ n4]

theorem kindIncrements_lookup_k3 (vector : String) (response : Response) (response_time : ℚ)
    (tr : TestResults) (sensitive sanitized_chars : List String) (slow : ℤ)
    (hb3 : check_for_delayed_response response_time slow = true) :
    lookupD (kindIncrements vector response response_time tr sensitive
        sanitized_chars slow).counts (some "Delayed response")
      = some ((lookupD tr.counts (some "Delayed response")).getD 0 + 1) := by
  have n1 : (some "Delayed response" : Option String) ≠ some "Unsanitized input" := by decide
  have n2 : (some "Delayed response" : Option String) ≠ some "Sensitive data leaked" := by decide
  have n4 : (some "Delayed response" : Option String) ≠ some "HTTP response code " := by decide
  cases hb1 : check_for_sanitization vector response sanitized_chars <;>
    cases hb2 : check_for_sensitive_data response sensitive <;>
      cases hb4 : check_http_response_code response <;>
        simp [kindIncrements, hb1, hb2, hb3, hb4, lookup_increment_self,
          lookup_increment_ne _ n1, lookup_increment_ne _ n2, lookup_increment_ne _ n4]

theorem kindIncrements_lookup_k4 (vector : String) (response : Response) (response_time : ℚ)
    (tr : TestResults) (sensitive sanitized_chars : List String) (slow : ℤ)
    (hb4 : check_http_response_code response = true) :
    lookupD (kindIncrements vector response response_time tr sensitive
        sanitized_chars slow).counts (some "HTTP response code ")
      = some ((lookupD tr.counts (some "HTTP response code ")).getD 0 + 1) := by
  have n1 : (some "HTTP response code " : Option String) ≠ some "Unsanitized input" := by decide
  have n2 : (some "HTTP response code " : Option String) ≠ some "Sensitive data leaked" := by
    decide
  have n3 : (some "HTTP response code " : Option String) ≠ some "Delayed response" := by decide
  cases hb1 : check_for_sanitization vector response sanitized_chars <;>
    cases hb2 : check_for_sensitive_data response sensitive <;>
      cases hb3 : check_for_delayed_response response_time slow <;>
        simp [kindIncrements, hb1, hb2, hb3, hb4, lookup_increment_self,
          lookup_increment_ne _ n1, lookup_increment_ne _ n2, lookup_increment_ne _ n3]

/-- C6: if at least one classifier flag is raised, `run_checks` increments
each raised vulnerability-kind counter, increments the vector-category
counter exactly once, and records on the target page the mapping from the
vector category to the union of the previously recorded flags with the raised
flag strings; a probe that raises zero flags leaves the `TestResults`
unchanged.  The category label is assumed distinct from the four fixed kind
labels (as produced by a vector catalog). -/
theorem C6_run_checks_thm (vector : String) (vector_type : Option String) (target : String)
    (response : Response) (response_time : ℚ) (tr : TestResults)
    (sensitive sanitized_chars : List String) (slow : ℤ)
    (h1 : vector_type ≠ some "Unsanitized input")
    (h2 : vector_type ≠ some "Sensitive data leaked")
    (h3 : vector_type ≠ some "Delayed response")
    (h4 : vector_type ≠ some "HTTP response code ") :
    (vulnList vector response response_time sensitive sanitized_chars slow = [] →
      run_checks vector vector_type target response response_time tr sensitive
        sanitized_chars slow = tr)
    ∧ (vulnList vector response response_time sensitive sanitized_chars slow ≠ [] →
        (check_for_sanitization vector response sanitized_chars = true →
          lookupD (run_checks vector vector_type target response response_time tr sensitive
              sanitized_chars slow).counts (some "Unsanitized input")
            = some ((lookupD tr.counts (some "Unsanitized input")).getD 0 + 1))
        ∧ (check_for_sensitive_data response sensitive = true →
          lookupD (run_checks vector vector_type target response response_time tr sensitive
              sanitized_chars slow).counts (some "Sensitive data leaked")
            = some ((lookupD tr.counts (some "Sensitive data leaked")).getD 0 + 1))
        ∧ (check_for_delayed_response response_time slow = true →
          lookupD (run_checks vector vector_type target response response_time tr sensitive
              sanitized_chars slow).counts (some "Delayed response")
            = some ((lookupD tr.counts (some "Delayed response")).getD 0 + 1))
        ∧ (check_http_response_code response = true →
          lookupD (run_checks vector vector_type target response response_time tr sensitive
              sanitized_chars slow).counts (some "HTTP response code ")
            = some ((lookupD tr.counts (some "HTTP response code ")).getD 0 + 1))
        ∧ lookupD (run_checks vector vector_type target response response_time tr sensitive
              sanitized_chars slow).counts vector_type
            = some ((lookupD tr.counts vector_type).getD 0 + 1)
        ∧ (lookupD (run_checks vector vector_type target response response_time tr sensitive
              sanitized_chars slow).pages target).bind (fun inner => lookupD inner vector_type)
            = some (((lookupD ((lookupD tr.pages target).getD []) vector_type).getD ∅)
                ∪ (vulnList vector response response_time sensitive sanitized_chars
                    slow).toFinset)) := by
  constructor
  · intro hz
    obtain ⟨hb1, hb2, hb3, hb4⟩ :=
      (vulnList_eq_nil vector response response_time sensitive sanitized_chars slow).mp hz
    simp [run_checks, kindIncrements, hz, hb1, hb2, hb3, hb4]
  · intro hnz
    have hlen : 0 < (vulnList vector response response_time sensitive sanitized_chars
        slow).length := List.length_pos.mpr hnz
    have hrun : run_checks vector vector_type target response response_time tr sensitive
        sanitized_chars slow
        = ((kindIncrements vector response response_time tr sensitive sanitized_chars
            slow).increment vector_type).add_page target vector_type
            (vulnList vector response response_time sensitive sanitized_chars slow) := by
      simp only [run_checks]
      rw [if_pos hlen]
    refine ⟨?_, ?_, ?_, ?_, ?_, ?_⟩
    · intro hb1
      rw [hrun, counts_add_page, lookup_increment_ne _ (Ne.symm h1)]
      exact kindIncrements_lookup_k1 vector response response_time tr sensitive
        sanitized_chars slow hb1
    · intro hb2
      rw [hrun, counts_add_page, lookup_increment_ne _ (Ne.symm h2)]
      exact kindIncrements_lookup_k2 vector response response_time tr sensitive
        sanitized_chars slow hb2
    · intro hb3
      rw [hrun, counts_add_page, lookup_increment_ne _ (Ne.symm h3)]
      exact kindIncrements_lookup_k3 vector response response_time tr sensitive
        sanitized_chars slow hb3
    · intro hb4
      rw [hrun, counts_add_page, lookup_increment_ne _ (Ne.symm h4)]
      exact kindIncrements_lookup_k4 vector response response_time tr sensitive
        sanitized_chars slow hb4
    · rw [hrun, counts_add_page, lookup_increment_self,
        kindIncrements_lookup_ne vector response response_time tr sensitive sanitized_chars
          slow h1 h2 h3 h4]
    · rw [hrun, lookup_add_page]
      simp only [pages_increment,
        kindIncrements_pages vector response response_time tr sensitive sanitized_chars slow]
      simp [lookupD_dinsert]

/-- Concrete response body echoing the vector for exercising `run_checks`. -/
def respEx : Response := ⟨"<html><script>alert(1)</script></html>", 200, "u"⟩

/-- Witness that the hypotheses of the `run_checks` theorem are satisfiable
and its conclusions hold at a concrete flagged probe. -/
theorem C6_run_checks_thm_witness :
    ((some "XSS" : Option String) ≠ some "Unsanitized input")
    ∧ vulnList "<script>" respEx 0 [] ["<", ">"] 500 ≠ []
    ∧ lookupD (run_checks "<script>" (some "XSS") "pg" respEx 0 TestResults.empty []
          ["<", ">"] 500).counts (some "XSS")
        = some ((lookupD TestResults.empty.counts (some "XSS")).getD 0 + 1) :=
  ⟨by decide, by decide,
    ((C6_run_checks_thm "<script>" (some "XSS") "pg" respEx 0 TestResults.empty []
        ["<", ">"] 500 (by decide) (by decide) (by decide) (by decide)).2
      (by decide)).2.2.2.2.1⟩

/-- Python `line.split(":")[1]`: the characters after the first colon and
before the next one. -/
def pySplitSecond (s : List Char) : List Char :=
  ((s.dropWhile (fun c => c ≠ ':')).drop 1).takeWhile (fun c => c ≠ ':')

/-- One line of `read_vectors`: strip, skip blanks, switch category on a
line containing `CATEGORY:`, otherwise assign the line to the current
category.  The state is the vectors dictionary and the current category. -/
def readVectorsStep (acc : List (String × Option String) × Option String)
    (rawLine : String) : List (String × Option String) × Option String :=
  let line := pyStrip rawLine
  if line = "" then acc
  else if pyIn "CATEGORY:" line = true then
    (acc.1, some (pyStrip ⟨pySplitSecond line.data⟩))
  else (dinsert acc.1 line acc.2, acc.2)

/-- `read_vectors`: fold the lines of the vector file starting from an empty
dictionary and the absent category `None`. -/
def read_vectors (lines : List String) : List (String × Option String) :=
  (lines.foldl readVectorsStep ([], none)).1

theorem dinsert_forall_snd {κ : Type u} {β : Type v} [DecidableEq κ]
    (P : β → Prop) (l : List (κ × β)) (k : κ) (v : β)
    (hl : ∀ e ∈ l, P e.2) (hv : P v) : ∀ e ∈ dinsert l k v, P e.2 := by
  induction l with
  | nil =>
    intro e he
    simp [dinsert] at he
    subst he
    exact hv
  | cons p t ih =>
    obtain ⟨a, b⟩ := p
    by_cases hak : a = k
    · intro e he
      simp [dinsert, hak] at he
      rcases he with he | he
      · subst he
        exact hv
      · exact hl e (List.mem_cons_of_mem _ he)
    · intro e he
      simp only [dinsert, if_neg hak, List.mem_cons] at he
      rcases he with he | he
      · subst he
        exact hl (a, b) (List.mem_cons_self _ _)
      · exact ih (fun x hx => hl x (List.mem_cons_of_mem _ hx)) e he

theorem readVectors_auxStep (t : List String)
    (_hmt : ∀ x ∈ t, pyIn "CATEGORY:" (pyStrip x) = false)
    (ih : ∀ acc, acc.2 = none → (∀ e ∈ acc.1, e.2 = none) →
      (t.foldl readVectorsStep acc).2 = none
      ∧ ∀ e ∈ (t.foldl readVectorsStep acc).1, e.2 = none)
    (acc : List (String × Option String) × Option String)
    (h2 : acc.2 = none) (h1 : ∀ e ∈ acc.1, e.2 = none)
    (l : String) (hml : pyIn "CATEGORY:" (pyStrip l) = false) :
    (t.foldl readVectorsStep (readVectorsStep acc l)).2 = none
    ∧ ∀ e ∈ (t.foldl readVectorsStep (readVectorsStep acc l)).1, e.2 = none := by
  by_cases hb : pyStrip l = ""
  · have : readVectorsStep acc l = acc := by
      simp [readVectorsStep, hb]
    rw [this]
    exact ih acc h2 h1
  · have : readVectorsStep acc l = (dinsert acc.1 (pyStrip l) acc.2, acc.2) := by
      simp [readVectorsStep, hb, hml]
    rw [this]
    refine ih _ h2 ?_
    rw [h2]
    exact dinsert_forall_snd (fun x => x = none) acc.1 (pyStrip l) none h1 rfl

theorem readVectors_aux (lines : List String)
    (hm : ∀ l ∈ lines, pyIn "CATEGORY:" (pyStrip l) = false) :
    ∀ (acc : List (String × Option String) × Option String),
      acc.2 = none → (∀ e ∈ acc.1, e.2 = none) →
      (lines.foldl readVectorsStep acc).2 = none
      ∧ ∀ e ∈ (lines.foldl readVectorsStep acc).1, e.2 = none := by
  induction lines with
  | nil =>
    intro acc h2 h1
    exact ⟨h2, h1⟩
  | cons l t ih =>
    intro acc h2 h1
    have hml : pyIn "CATEGORY:" (pyStrip l) = false := hm l (List.mem_cons_self _ _)
    have hmt : ∀ x ∈ t, pyIn "CATEGORY:" (pyStrip x) = false :=
      fun x hx => hm x (List.mem_cons_of_mem _ hx)
    have hstep : (l :: t).foldl readVectorsStep acc = t.foldl readVectorsStep
        (readVectorsStep acc l) := rfl
    rw [hstep]
    exact readVectors_auxStep t hmt (ih hmt) acc h2 h1 l hml

/-- C10: every non-blank vector line read while no `CATEGORY:` marker has
been seen yet is stored with the absent category `None`; blank lines are
skipped; and a payload repeated under a later category section is kept once,
with the later section's category (dictionary overwrite), as the concrete run
shows. -/
theorem C10_read_vectors_thm :
    (∀ lines : List String, (∀ l ∈ lines, pyIn "CATEGORY:" (pyStrip l) = false) →
      (lines.foldl readVectorsStep ([], none)).2 = none
      ∧ ∀ e ∈ read_vectors lines, e.2 = none)
    ∧ (∀ (acc : List (String × Option String) × Option String) (rawLine : String),
        pyStrip rawLine = "" → readVectorsStep acc rawLine = acc)
    ∧ read_vectors ["v1", "  ", "CATEGORY: SQLi", "v2", "CATEGORY: XSS", "v2"]
        = [("v1", none), ("v2", some "XSS")] := by
  refine ⟨?_, ?_, by decide⟩
  · intro lines hm
    exact readVectors_aux lines hm ([], none) rfl (by intro e he; simp at he)
  · intro acc rawLine hb
    simp [readVectorsStep, hb]

/-- Witness that the hypotheses of the `read_vectors` theorem are
satisfiable and its conclusions hold at concrete inputs. -/
theorem C10_read_vectors_thm_witness :
    (∀ l ∈ ["v1", "v2"], pyIn "CATEGORY:" (pyStrip l) = false)
    ∧ ((["v1", "v2"].foldl readVectorsStep ([], none)).2 = none
      ∧ ∀ e ∈ read_vectors ["v1", "v2"], e.2 = none) :=
  ⟨by decide, (C10_read_vectors_thm.1 ["v1", "v2"] (by decide))⟩

/-- Candidate page names accumulated by `guess_pages`.  When an extension
file is given, both files are opened once and iterated as Python file
handles; the inner `for extension in extensions` loop consumes the shared
handle, so it is exhausted after the first word.  The accumulator carries the
candidate list and the remaining (unconsumed) extension lines.  Without an
extension file, each stripped word alone is a candidate. -/
def guess_pages_candidates (words exts : List String) (hasExtensions : Bool) : List String :=
  if hasExtensions then
    (words.foldl (fun (acc : List String × List String) word =>
        (acc.1 ++ acc.2.map (fun ext => pyStrip word ++ pyStrip ext), [])) ([], exts)).1
  else
    words.map (fun word => pyStrip word)

/-- C3 (code bug): with wordlist `admin, login` and extensions `.php` and
the empty line, the code produces only the first word's combinations because
the extensions file iterator is exhausted after the first word; the claimed
full word-by-extension cross product would also contain `login.php` and
`login`. -/
theorem C3_guess_pages_exhausted_iterator :
    guess_pages_candidates ["admin", "login"] [".php", ""] true = ["admin.php", "admin"]
    ∧ guess_pages_candidates ["admin", "login"] [".php", ""] true
        ≠ ["admin.php", "admin", "login.php", "login"] := by
  exact ⟨by decide, by decide⟩

/-- C4 (code bug): with no extension file the code probes each word alone
(no `.php` variant is generated anywhere), although the program's own help
text documents a default of `.php` and the empty string. -/
theorem C4_guess_pages_no_default_extensions :
    guess_pages_candidates ["admin"] [] false = ["admin"]
    ∧ guess_pages_candidates ["admin"] [] false ≠ ["admin.php", "admin"] := by
  exact ⟨by decide, by decide⟩

/-- Deleting a cookie by name, as `cookies.set(name, None)` does. -/
def jarDel (jar : List (String × String)) (name : String) : List (String × String) :=
  jar.filter (fun c => c.1 ≠ name)

/-- Adding a cookie, as `cookies.set(name, vector, domain=..., path=...)`
does after the delete; domain and path are threaded through unchanged and do
not affect restoration. -/
def jarSet (jar : List (String × String)) (name value : String) : List (String × String) :=
  jar ++ [(name, value)]

/-- One iteration of the `test_cookies` double loop for one (cookie, vector)
pair: overwrite the cookie's value with the vector, navigate to the base url
(the `base_open` oracle returns the jar after navigation, or `none` when the
navigation raises), then reset the live jar to the pre-sweep snapshot via
`browser.session.cookies = cookiejar.copy()`.  The change-recording step in
between only reads the jar.  A raised navigation propagates with the jar as
it stood, skipping the reset. -/
def test_cookies_probe
    (base_open : List (String × String) → Option (List (String × String)))
    (snapshot jar : List (String × String)) (name vector : String) :
    Except (List (String × String)) (List (String × String)) :=
  let jar1 := jarSet (jarDel jar name) name vector
  match base_open jar1 with
  | none => Except.error jar1
  | some _ => Except.ok snapshot

/-- The whole cookie sweep over the flattened (cookie, vector) enumeration,
threading the live jar from probe to probe. -/
def test_cookies_sweep
    (base_open : List (String × String) → Option (List (String × String)))
    (snapshot : List (String × String)) :
    List (String × String) → List (String × String) →
      Except (List (String × String)) (List (String × String))
  | [], jar => Except.ok jar
  | (name, vector) :: rest, jar =>
    match test_cookies_probe base_open snapshot jar name vector with
    | Except.error j => Except.error j
    | Except.ok j => test_cookies_sweep base_open snapshot rest j

/-- C2 counterexample: there is no try/finally around the probe body, so
when the navigation raises, the jar still holds the injected vector value
when the exception escapes the sweep: the overwrite leaks past the probe. -/
theorem C2_cookie_restore_counterexample :
    test_cookies_sweep (fun _ => none) [("sid", "abc")] [("sid", "<x>")] [("sid", "abc")]
      = Except.error [("sid", "<x>")]
    ∧ ([("sid", "<x>")] : List (String × String)) ≠ [("sid", "abc")] := by
  exact ⟨rfl, by decide⟩

theorem test_cookies_sweep_ok
    (base_open : List (String × String) → Option (List (String × String)))
    (snapshot : List (String × String))
    (hok : ∀ j, (base_open j).isSome = true) :
    ∀ (probes : List (String × String)) (jar0 : List (String × String)),
      test_cookies_sweep base_open snapshot probes jar0
        = Except.ok (if probes = [] then jar0 else snapshot) := by
  intro probes
  induction probes with
  | nil =>
    intro jar0
    simp [test_cookies_sweep]
  | cons p rest ih =>
    intro jar0
    obtain ⟨name, vector⟩ := p
    obtain ⟨j2, hj2⟩ :=
      Option.isSome_iff_exists.mp (hok (jarSet (jarDel jar0 name) name vector))
    by_cases hr : rest = []
    · subst hr
      simp [test_cookies_sweep, test_cookies_probe, hj2]
    · simp [test_cookies_sweep, test_cookies_probe, hj2, ih, hr]

/-- C2 (amended): after every probe whose navigation completes without
raising, the cookie jar is reset to the pre-sweep snapshot, so no probe's
cookie overwrite leaks into the next probe; the sweep then ends with the jar
equal to the snapshot.  (When a navigation raises, the reset is skipped and
the overwritten jar escapes, as the counterexample shows.) -/
theorem C2_cookie_restore_thm
    (base_open : List (String × String) → Option (List (String × String)))
    (snapshot jar0 : List (String × String)) (probes : List (String × String))
    (hok : ∀ j, (base_open j).isSome = true) (hne : probes ≠ []) :
    test_cookies_sweep base_open snapshot probes jar0 = Except.ok snapshot := by
  rw [test_cookies_sweep_ok base_open snapshot hok probes jar0, if_neg hne]

/-- Witness that the hypotheses of the cookie-restore theorem are
satisfiable and its conclusion holds at a concrete sweep. -/
theorem C2_cookie_restore_thm_witness :
    test_cookies_sweep (fun j => some j) [("sid", "abc")] [("sid", "<x>"), ("sid", "<y>")]
      [("sid", "abc")] = Except.ok [("sid", "abc")] :=
  C2_cookie_restore_thm _ _ _ _ (fun _ => rfl) (by decide)

/-- Python `hay.find(needle)` scanning from index `i`: first index where the
needle is a prefix, `-1` when absent. -/
def pyFindAux (needle : List Char) : List Char → Int → Int
  | [], i => if needle.isEmpty then i else -1
  | c :: t, i => if needle.isPrefixOf (c :: t) then i else pyFindAux needle t (i + 1)

/-- Python `hay.find(needle)`. -/
def pyFind (hay needle : String) : Int := pyFindAux needle.data hay.data 0

/-- Python `s.split(sep)[0]` for a one-character separator: the characters
before the first occurrence. -/
def pyTakeUntil (sep : Char) (s : List Char) : List Char :=
  s.takeWhile (fun c => c ≠ sep)

/-- Domain extraction as `is_external` performs it on both the link and the
base url: take the text after `//` (or after the first `:` for an absolute
link without `//`), then `split("/")[0].split(":")[0].lower()`. -/
def extract_domain (u : String) : String :=
  let dd := pyFind u "//"
  let col := pyFind u ":"
  let page :=
    if dd > -1 then u.data.drop (dd + 2).toNat
    else if col > -1 then u.data.drop (col + 1).toNat
    else u.data
  ⟨(pyTakeUntil ':' (pyTakeUntil '/' page)).map Char.toLower⟩

/-- The pure content of `is_external`: a link is external iff it is absolute
(it contains `//` or `:`) and its extracted domain differs from the base
url's extracted domain. -/
def isExternalP (url base_url : String) : Bool :=
  if pyFind url "//" > -1 ∨ pyFind url ":" > -1 then
    decide (extract_domain url ≠ extract_domain base_url)
  else false

/-- `is_external` as written: first consult the set of already-known
external links, else classify by domain comparison; a newly found external
link is added to the set, which is returned alongside the verdict. -/
def is_external (url base_url : String) (external_links : List String) :
    Bool × List String :=
  if url ∈ external_links then (true, external_links)
  else if pyFind url "//" > -1 ∨ pyFind url ":" > -1 then
    if extract_domain url = extract_domain base_url then (false, external_links)
    else (true, url :: external_links)
  else (false, external_links)

/-- A page as the crawler sees it: its title and the `href` targets of its
anchor elements (anchors without `href` are skipped by the code). -/
structure SitePage where
  title : String
  hrefs : List String

/-- The web site abstraction behind the browser: the page served at a url
(`none` when `browser.page` is `None`), the status code observed when
following a link, and the url reached by following a link. -/
structure Site where
  pageOf : String → Option SitePage
  statusOf : String → Nat
  resolve : String → String

/-- The mutable crawl state threaded through `crawl_link`: the discovered
link set, the external link set, the valid-pages dictionary (url to title),
and — as an observation trace for the theorems — the list of links actually
followed (`browser.follow_link`), in order. -/
structure CrawlState where
  discovered : List String
  external_links : List String
  valid_pages : List (String × String)
  followed : List String

/-- The first loop of `crawl_link` over the links of the current page:
skip links already discovered or external (caching externals), add the rest
to the discovered set, skip logout links, and collect the remainder as
`not_yet_crawled`. -/
def processLinks (base_url : String) (start : CrawlState × List String)
    (hrefs : List String) : CrawlState × List String :=
  hrefs.foldl (fun acc link_url =>
    if link_url ∈ acc.1.discovered then acc
    else
      let ext := is_external link_url base_url acc.1.external_links
      if ext.1 then ({ acc.1 with external_links := ext.2 }, acc.2)
      else
        let st1 : CrawlState :=
          { acc.1 with
              external_links := ext.2
              discovered := link_url :: acc.1.discovered }
        if pyIn "logout" link_url = true then (st1, acc.2)
        else (st1, acc.2 ++ [link_url])) start

/-- `crawl_link`: if the browser has a page and the url was not already
visited, record it in `valid_pages`, filter its links, then follow each
collected link and recurse unless the response is a 404.  The fuel bounds
the recursion depth; exhausted fuel stops the branch unchanged. -/
def crawl_link (site : Site) (base_url : String) : Nat → String → CrawlState → CrawlState
  | 0, _, st => st
  | Nat.succ fuel, url, st =>
    match site.pageOf url with
    | none => st
    | some pg =>
      if url ∈ keysOf st.valid_pages then st
      else
        let st1 : CrawlState := { st with valid_pages := st.valid_pages ++ [(url, pg.title)] }
        let pl := processLinks base_url (st1, []) pg.hrefs
        pl.2.foldl (fun s link_url =>
          let s1 : CrawlState := { s with followed := s.followed ++ [link_url] }
          if site.statusOf link_url ≠ 404 then
            crawl_link site base_url fuel (site.resolve link_url) s1
          else s1) pl.1

/-- The second loop of `crawl_link` (follow each not-yet-crawled link and
recurse on non-404 responses), named for the proofs. -/
def crawl_children (site : Site) (base_url : String) (fuel : Nat)
    (links : List String) (st : CrawlState) : CrawlState :=
  links.foldl (fun s link_url =>
    let s1 : CrawlState := { s with followed := s.followed ++ [link_url] }
    if site.statusOf link_url ≠ 404 then
      crawl_link site base_url fuel (site.resolve link_url) s1
    else s1) st

theorem crawl_children_nil (site : Site) (base_url : String) (fuel : Nat) (st : CrawlState) :
    crawl_children site base_url fuel [] st = st := rfl

theorem crawl_children_cons (site : Site) (base_url : String) (fuel : Nat)
    (l : String) (t : List String) (st : CrawlState) :
    crawl_children site base_url fuel (l :: t) st =
      crawl_children site base_url fuel t
        (if site.statusOf l ≠ 404 then
          crawl_link site base_url fuel (site.resolve l)
            { st with followed := st.followed ++ [l] }
        else { st with followed := st.followed ++ [l] }) := rfl

theorem crawl_link_succ (site : Site) (base_url : String) (fuel : Nat) (url : String)
    (st : CrawlState) :
    crawl_link site base_url (fuel + 1) url st =
      match site.pageOf url with
      | none => st
      | some pg =>
        if url ∈ keysOf st.valid_pages then st
        else
          crawl_children site base_url fuel
            (processLinks base_url
              ({ st with valid_pages := st.valid_pages ++ [(url, pg.title)] }, [])
              pg.hrefs).2
            (processLinks base_url
              ({ st with valid_pages := st.valid_pages ++ [(url, pg.title)] }, [])
              pg.hrefs).1 := rfl

/-- A link eligible for traversal: not external and not a logout link. -/
def GoodLink (base_url link : String) : Prop :=
  isExternalP link base_url = false ∧ pyIn "logout" link = false

/-- The external-link cache only ever holds genuinely external links. -/
def ExtOk (base_url : String) (st : CrawlState) : Prop :=
  ∀ x ∈ st.external_links, isExternalP x base_url = true

/-- The crawl-state invariant: no url is recorded twice in the page
inventory, and the external cache is sound. -/
def CrawlInv (base_url : String) (st : CrawlState) : Prop :=
  (keysOf st.valid_pages).Nodup ∧ ExtOk base_url st

theorem is_external_fst (url base_url : String) (el : List String)
    (h : ∀ x ∈ el, isExternalP x base_url = true) :
    (is_external url base_url el).1 = isExternalP url base_url := by
  by_cases hm : url ∈ el
  · simp only [is_external, if_pos hm]
    exact (h url hm).symm
  · by_cases habs : pyFind url "//" > -1 ∨ pyFind url ":" > -1
    · by_cases hdom : extract_domain url = extract_domain base_url
      · simp [is_external, isExternalP, hm, habs, hdom]
      · simp [is_external, isExternalP, hm, habs, hdom]
    · simp [is_external, isExternalP, hm, habs]

theorem is_external_snd (url base_url : String) (el : List String)
    (h : ∀ x ∈ el, isExternalP x base_url = true) :
    ∀ x ∈ (is_external url base_url el).2, isExternalP x base_url = true := by
  by_cases hm : url ∈ el
  · simp only [is_external, if_pos hm]
    exact h
  · by_cases habs : pyFind url "//" > -1 ∨ pyFind url ":" > -1
    · by_cases hdom : extract_domain url = extract_domain base_url
      · simp only [is_external, if_neg hm, if_pos habs, if_pos hdom]
        exact h
      · simp only [is_external, if_neg hm, if_pos habs, if_neg hdom]
        intro x hx
        rcases List.mem_cons.mp hx with hx | hx
        · subst hx
          simp [isExternalP, habs, hdom]
        · exact h x hx
    · simp only [is_external, if_neg hm, if_neg habs]
      exact h

theorem processLinks_spec (base_url : String) (hrefs : List String) :
    ∀ (st : CrawlState) (nyc : List String), ExtOk base_url st →
      (processLinks base_url (st, nyc) hrefs).1.valid_pages = st.valid_pages
      ∧ (processLinks base_url (st, nyc) hrefs).1.followed = st.followed
      ∧ ExtOk base_url (processLinks base_url (st, nyc) hrefs).1
      ∧ ∀ l ∈ (processLinks base_url (st, nyc) hrefs).2, l ∈ nyc ∨ GoodLink base_url l := by
  induction hrefs with
  | nil =>
    intro st nyc hext
    exact ⟨rfl, rfl, hext, fun l hl => Or.inl hl⟩
  | cons h t ih =>
    intro st nyc hext
    by_cases hd : h ∈ st.discovered
    · have hstep : processLinks base_url (st, nyc) (h :: t)
          = processLinks base_url (st, nyc) t := by
        simp [processLinks, hd]
      rw [hstep]
      exact ih st nyc hext
    · by_cases hx : (is_external h base_url st.external_links).1 = true
      · have hstep : processLinks base_url (st, nyc) (h :: t)
            = processLinks base_url
                ({ st with external_links := (is_external h base_url st.external_links).2 },
                  nyc) t := by
          simp [processLinks, hd, hx]
        rw [hstep]
        have hext' : ExtOk base_url
            { st with external_links := (is_external h base_url st.external_links).2 } :=
          is_external_snd h base_url st.external_links hext
        exact ih _ nyc hext'
      · have hgood1 : isExternalP h base_url = false := by
          rw [← is_external_fst h base_url st.external_links hext]
          exact Bool.not_eq_true _ ▸ (Bool.eq_false_iff.mpr hx)
        by_cases hlg : pyIn "logout" h = true
        · have hstep : processLinks base_url (st, nyc) (h :: t)
              = processLinks base_url
                  ({ st with
                      external_links := (is_external h base_url st.external_links).2
                      discovered := h :: st.discovered }, nyc) t := by
            simp [processLinks, hd, hx, hlg]
          rw [hstep]
          exact ih _ nyc (is_external_snd h base_url st.external_links hext)
        · have hstep : processLinks base_url (st, nyc) (h :: t)
              = processLinks base_url
                  ({ st with
                      external_links := (is_external h base_url st.external_links).2
                      discovered := h :: st.discovered }, nyc ++ [h]) t := by
            simp [processLinks, hd, hx, hlg]
          rw [hstep]
          have hres := ih
            { st with
                external_links := (is_external h base_url st.external_links).2
                discovered := h :: st.discovered }
            (nyc ++ [h]) (is_external_snd h base_url st.external_links hext)
          refine ⟨hres.1, hres.2.1, hres.2.2.1, ?_⟩
          intro l hl
          rcases hres.2.2.2 l hl with hm | hg
          · rcases List.mem_append.mp hm with hm | hm
            · exact Or.inl hm
            · have : l = h := by simpa using hm
              subst this
              exact Or.inr ⟨hgood1, Bool.eq_false_iff.mpr hlg⟩
          · exact Or.inr hg

/-- What one `crawl_link` call guarantees: the invariant is preserved, the
followed-links trace only grows and grows only by eligible links, and every
new page-inventory key is the visited url itself or the resolution of some
followed link. -/
def CrawlClaim (site : Site) (base_url url : String) (st st' : CrawlState) : Prop :=
  CrawlInv base_url st'
  ∧ (∀ h ∈ st.followed, h ∈ st'.followed)
  ∧ (∀ h ∈ st'.followed, h ∈ st.followed ∨ GoodLink base_url h)
  ∧ (∀ k ∈ keysOf st'.valid_pages,
      k ∈ keysOf st.valid_pages ∨ k = url ∨ ∃ l ∈ st'.followed, k = site.resolve l)

/-- What the child-following loop guarantees (as `CrawlClaim`, but every
new inventory key resolves some followed link). -/
def CrawlChildrenClaim (site : Site) (base_url : String) (st st' : CrawlState) : Prop :=
  CrawlInv base_url st'
  ∧ (∀ h ∈ st.followed, h ∈ st'.followed)
  ∧ (∀ h ∈ st'.followed, h ∈ st.followed ∨ GoodLink base_url h)
  ∧ (∀ k ∈ keysOf st'.valid_pages,
      k ∈ keysOf st.valid_pages ∨ ∃ l ∈ st'.followed, k = site.resolve l)

theorem crawl_children_spec (site : Site) (base_url : String) (fuel : Nat)
    (ihc : ∀ (url : String) (st : CrawlState), CrawlInv base_url st →
      CrawlClaim site base_url url st (crawl_link site base_url fuel url st)) :
    ∀ (links : List String) (st : CrawlState), CrawlInv base_url st →
      (∀ l ∈ links, GoodLink base_url l) →
      CrawlChildrenClaim site base_url st (crawl_children site base_url fuel links st) := by
  intro links
  induction links with
  | nil =>
    intro st hinv hg
    rw [crawl_children_nil]
    exact ⟨hinv, fun h hh => hh, fun h hh => Or.inl hh, fun k hk => Or.inl hk⟩
  | cons l t iht =>
    intro st hinv hg
    rw [crawl_children_cons]
    have hgl : GoodLink base_url l := hg l (List.mem_cons_self _ _)
    have hgt : ∀ x ∈ t, GoodLink base_url x := fun x hx => hg x (List.mem_cons_of_mem _ hx)
    have hinv1 : CrawlInv base_url { st with followed := st.followed ++ [l] } := hinv
    by_cases hst : site.statusOf l ≠ 404
    · rw [if_pos hst]
      have hmid := ihc (site.resolve l) { st with followed := st.followed ++ [l] } hinv1
      have hrest := iht
        (crawl_link site base_url fuel (site.resolve l)
          { st with followed := st.followed ++ [l] }) hmid.1 hgt
      refine ⟨hrest.1, ?_, ?_, ?_⟩
      · intro h hh
        apply hrest.2.1
        apply hmid.2.1
        exact List.mem_append.mpr (Or.inl hh)
      · intro h hh
        rcases hrest.2.2.1 h hh with hh2 | hgd
        · rcases hmid.2.2.1 h hh2 with hh1 | hgd
          · rcases List.mem_append.mp hh1 with hh0 | hh0
            · exact Or.inl hh0
            · have heq : h = l := by simpa using hh0
              subst heq
              exact Or.inr hgl
          · exact Or.inr hgd
        · exact Or.inr hgd
      · intro k hk
        rcases hrest.2.2.2 k hk with hk2 | hk2
        · rcases hmid.2.2.2 k hk2 with hk1 | hk1 | hk1
          · exact Or.inl hk1
          · refine Or.inr ⟨l, ?_, hk1⟩
            apply hrest.2.1
            apply hmid.2.1
            exact List.mem_append.mpr (Or.inr (List.mem_singleton.mpr rfl))
          · obtain ⟨l1, hl1, hres⟩ := hk1
            exact Or.inr ⟨l1, hrest.2.1 l1 hl1, hres⟩
        · obtain ⟨l2, hl2, hres⟩ := hk2
          exact Or.inr ⟨l2, hl2, hres⟩
    · rw [if_neg hst]
      have hrest := iht { st with followed := st.followed ++ [l] } hinv1 hgt
      refine ⟨hrest.1, ?_, ?_, ?_⟩
      · intro h hh
        apply hrest.2.1
        exact List.mem_append.mpr (Or.inl hh)
      · intro h hh
        rcases hrest.2.2.1 h hh with hh1 | hgd
        · rcases List.mem_append.mp hh1 with hh0 | hh0
          · exact Or.inl hh0
          · have heq : h = l := by simpa using hh0
            subst heq
            exact Or.inr hgl
        · exact Or.inr hgd
      · intro k hk
        rcases hrest.2.2.2 k hk with hk1 | hk1
        · exact Or.inl hk1
        · obtain ⟨l2, hl2, hres⟩ := hk1
          exact Or.inr ⟨l2, hl2, hres⟩

theorem crawl_link_spec (site : Site) (base_url : String) :
    ∀ (fuel : Nat) (url : String) (st : CrawlState), CrawlInv base_url st →
      CrawlClaim site base_url url st (crawl_link site base_url fuel url st) := by
  intro fuel
  induction fuel with
  | zero =>
    intro url st hinv
    exact ⟨hinv, fun h hh => hh, fun h hh => Or.inl hh, fun k hk => Or.inl hk⟩
  | succ fuel ih =>
    intro url st hinv
    rw [crawl_link_succ]
    cases hpg : site.pageOf url with
    | none =>
      exact ⟨hinv, fun h hh => hh, fun h hh => Or.inl hh, fun k hk => Or.inl hk⟩
    | some pg =>
      dsimp only
      by_cases hvis : url ∈ keysOf st.valid_pages
      · rw [if_pos hvis]
        exact ⟨hinv, fun h hh => hh, fun h hh => Or.inl hh, fun k hk => Or.inl hk⟩
      · rw [if_neg hvis]
        have hinv1 : CrawlInv base_url
            { st with valid_pages := st.valid_pages ++ [(url, pg.title)] } := by
          constructor
          · show (keysOf (st.valid_pages ++ [(url, pg.title)])).Nodup
            rw [keysOf_append]
            have hd : List.Disjoint (keysOf st.valid_pages) (keysOf [(url, pg.title)]) := by
              intro a ha hb
              have heq : a = url := by simpa [keysOf] using hb
              subst heq
              exact hvis ha
            exact List.Nodup.append hinv.1 (by simp [keysOf]) hd
          · exact hinv.2
        have hpl := processLinks_spec base_url pg.hrefs
          { st with valid_pages := st.valid_pages ++ [(url, pg.title)] } [] hinv1.2
        have hinvpl : CrawlInv base_url
            (processLinks base_url
              ({ st with valid_pages := st.valid_pages ++ [(url, pg.title)] }, [])
              pg.hrefs).1 := by
          constructor
          · show (keysOf (processLinks base_url
              ({ st with valid_pages := st.valid_pages ++ [(url, pg.title)] }, [])
              pg.hrefs).1.valid_pages).Nodup
            rw [hpl.1]
            exact hinv1.1
          · exact hpl.2.2.1
        have hgood : ∀ l ∈ (processLinks base_url
            ({ st with valid_pages := st.valid_pages ++ [(url, pg.title)] }, [])
            pg.hrefs).2, GoodLink base_url l := by
          intro l hl
          rcases hpl.2.2.2 l hl with hmem | hgd
          · exact absurd hmem (List.not_mem_nil l)
          · exact hgd
        have hch := crawl_children_spec site base_url fuel ih
          (processLinks base_url
            ({ st with valid_pages := st.valid_pages ++ [(url, pg.title)] }, [])
            pg.hrefs).2
          (processLinks base_url
            ({ st with valid_pages := st.valid_pages ++ [(url, pg.title)] }, [])
            pg.hrefs).1
          hinvpl hgood
        refine ⟨hch.1, ?_, ?_, ?_⟩
        · intro h hh
          apply hch.2.1
          rw [hpl.2.1]
          exact hh
        · intro h hh
          rcases hch.2.2.1 h hh with hh1 | hgd
          · rw [hpl.2.1] at hh1
            exact Or.inl hh1
          · exact Or.inr hgd
        · intro k hk
          rcases hch.2.2.2 k hk with hk1 | hk1
          · rw [hpl.1] at hk1
            have hk2 : k ∈ keysOf st.valid_pages ++ [url] := by
              simpa [keysOf_append, keysOf] using hk1
            rcases List.mem_append.mp hk2 with hk0 | hk0
            · exact Or.inl hk0
            · have heq : k = url := by simpa using hk0
              exact Or.inr (Or.inl heq)
          · obtain ⟨l, hl, hres⟩ := hk1
            exact Or.inr (Or.inr ⟨l, hl, hres⟩)

/-- The base path computed by `parse_urls`: `url.split("?")[0]`, the page
identity with the query string stripped (the spec's canonical url). -/
def parse_url_base (url : String) : String := ⟨pyTakeUntil '?' url.data⟩

/-- The crawl state as `page_discovery` initialises it: the discovered set
pre-seeded with `?phpids=on`, everything else empty. -/
def initCrawlState : CrawlState := ⟨["?phpids=on"], [], [], []⟩

/-- A three-page site whose start page links to the same path under two
different query strings. -/
def siteEx : Site where
  pageOf := fun u =>
    if u = "start" then some ⟨"Start", ["p?a=1", "p?a=2"]⟩
    else if u = "p?a=1" then some ⟨"P1", []⟩
    else if u = "p?a=2" then some ⟨"P2", []⟩
    else none
  statusOf := fun _ => 200
  resolve := fun l => l

/-- C5 counterexample: the crawler deduplicates on the exact url including
its query string, so the two query variants of the path `p` are both
recorded and expanded — the same canonical (query-stripped) url is visited
twice, contrary to the claim's canonical-url reading. -/
theorem C5_crawl_counterexample :
    "p?a=1" ∈ keysOf (crawl_link siteEx "start" 5 "start" initCrawlState).valid_pages
    ∧ "p?a=2" ∈ keysOf (crawl_link siteEx "start" 5 "start" initCrawlState).valid_pages
    ∧ parse_url_base "p?a=1" = parse_url_base "p?a=2"
    ∧ "p?a=1" ≠ "p?a=2" := by
  exact ⟨by decide, by decide, by decide, by decide⟩

/-- C5 (amended): for every site and crawl starting from `page_discovery`'s
initial state, the crawler never records the same exact url (query string
included) twice — the inventory keys stay duplicate-free; a followed link is
never external and never contains `"logout"`; and every inventory entry is
the start url or the resolution of some followed (hence internal,
non-logout) link, so external links are never traversed and never produce
inventory entries.  Dedup is per exact url: distinct query variants of one
canonical url may each be visited once. -/
theorem C5_crawl_thm (site : Site) (base_url : String) (fuel : Nat) (url : String) :
    (keysOf (crawl_link site base_url fuel url initCrawlState).valid_pages).Nodup
    ∧ (∀ h ∈ (crawl_link site base_url fuel url initCrawlState).followed,
        isExternalP h base_url = false ∧ pyIn "logout" h = false)
    ∧ (∀ k ∈ keysOf (crawl_link site base_url fuel url initCrawlState).valid_pages,
        k = url ∨ ∃ l ∈ (crawl_link site base_url fuel url initCrawlState).followed,
          (isExternalP l base_url = false ∧ pyIn "logout" l = false)
          ∧ k = site.resolve l) := by
  have hinit : CrawlInv base_url initCrawlState := by
    constructor
    · exact List.nodup_nil
    · intro x hx
      exact absurd hx (List.not_mem_nil x)
  obtain ⟨⟨hnd, _⟩, _, hback, hkeys⟩ :=
    crawl_link_spec site base_url fuel url initCrawlState hinit
  refine ⟨hnd, ?_, ?_⟩
  · intro h hh
    rcases hback h hh with hh0 | hg
    · exact absurd hh0 (List.not_mem_nil h)
    · exact hg
  · intro k hk
    rcases hkeys k hk with hk0 | hk0 | hk0
    · exact absurd hk0 (List.not_mem_nil k)
    · exact Or.inl hk0
    · obtain ⟨l, hl, hres⟩ := hk0
      refine Or.inr ⟨l, hl, ?_, hres⟩
      rcases hback l hl with h0 | h0
      · exact absurd h0 (List.not_mem_nil l)
      · exact h0
